import Mathlib

/-
Verification development for the Solfagraskolan watcher crawl pipeline
(scrape_and_build.py). The Python source is shallowly embedded: pure string
and HTML-tree processing becomes Lean functions over lists of characters and
an explicit node tree; network calls (requests.get, requests.head) become
oracle parameters; raised exceptions become Except values; the persisted
history file becomes an explicit state value threaded through main.
-/

set_option maxRecDepth 10000

namespace Watcher

/-! ### String utilities (models of the Python str operations used) -/

/-- Model of the ASCII whitespace recognised by str.split and str.strip. -/
def isWS (c : Char) : Bool := c == ' ' || c == '\t' || c == '\n' || c == '\r'

/-- Model of str.strip on the character list of a string. -/
def stripChars (l : List Char) : List Char :=
  ((l.dropWhile isWS).reverse.dropWhile isWS).reverse

/-- Model of str.strip. -/
def stripStr (s : String) : String := String.mk (stripChars s.data)

/-- Model of str.split with no arguments: split on whitespace runs, no empty
words. The first argument accumulates the current word in reverse. -/
def pySplitAux : List Char → List Char → List String
  | acc, [] => if acc == [] then [] else [String.mk acc.reverse]
  | acc, c :: rest =>
    if isWS c then
      if acc == [] then pySplitAux [] rest
      else String.mk acc.reverse :: pySplitAux [] rest
    else pySplitAux (c :: acc) rest

/-- Join a list of strings with a separator, as str.join does. -/
def sepJoin (sep : String) : List String → String
  | [] => ""
  | x :: xs => xs.foldl (fun acc y => acc ++ sep ++ y) x

/-- Model of the Python idiom " ".join(s.split()): collapse whitespace. -/
def collapseWs (s : String) : String := sepJoin " " (pySplitAux [] s.data)

/-- Model of str.lower restricted to ASCII letters (the URLs and keywords the
program compares are ASCII or already lowercase). -/
def lowerStr (s : String) : String := String.mk (s.data.map Char.toLower)

/-- The norm helper inside parse_links: collapse whitespace then lowercase. -/
def normPL (s : String) : String := lowerStr (collapseWs s)

/-- Does the first list occur as a leading block of the second list. -/
def startsList : List Char → List Char → Bool
  | [], _ => true
  | _ :: _, [] => false
  | a :: as, b :: bs => a == b && startsList as bs

/-- Does the first list occur as a contiguous block anywhere in the second. -/
def subList (sub : List Char) : List Char → Bool
  | [] => startsList sub []
  | c :: rest => startsList sub (c :: rest) || subList sub rest

/-- Model of the Python membership test: sub in s (substring test). -/
def strContains (s sub : String) : Bool := subList sub.data s.data

/-- Model of s.startswith(pre). -/
def startsWithStr (s pre : String) : Bool := startsList pre.data s.data

/-- Model of the Python idiom x or d on strings: d when x is empty. -/
def orDefault (x d : String) : String := if x == "" then d else x

/-! ### Document type detection (looks_like_pdf, source lines 55-68) -/

/-- Does the character list end with the four characters of ".pdf": some
suffix equals that list exactly. -/
def endsDotPdf : List Char → Bool
  | [] => false
  | c :: rest => (c :: rest == ['.', 'p', 'd', 'f']) || endsDotPdf rest

/-- Does the list start with the letters pdf followed by end of string, a
question mark or a hash, the anchored part of the regex pdf($|[?#]). -/
def pdfAtHead : List Char → Bool
  | 'p' :: 'd' :: 'f' :: rest =>
    (match rest with
     | [] => true
     | c :: _ => c == '?' || c == '#')
  | _ => false

/-- Model of re.search for the pattern pdf($|[?#]): the anchored test tried
at every suffix start position. -/
def pdfTokenAux : List Char → Bool
  | [] => false
  | c :: rest => pdfAtHead (c :: rest) || pdfTokenAux rest

/-- The URL path part: characters before the first question mark or hash. -/
def pathChars (l : List Char) : List Char :=
  l.takeWhile (fun c => !(c == '?' || c == '#'))

/-- Embedding of looks_like_pdf (source lines 55-68). The HEAD probe becomes
the oracle probe: none models a network failure (the except branch), some ct
models a response whose Content-Type header is ct (the empty string when the
header is absent). The function is total: a probe failure resolves to false
and nothing is raised. -/
def looks_like_pdf (probe : String → Option String) (url : String) : Bool :=
  let u := lowerStr url
  if endsDotPdf u.data then true
  else if pdfTokenAux u.data then true
  else
    match probe url with
    | none => false
    | some ct => strContains (lowerStr ct) "application/pdf"

/-- Modelled from the spec wording of isDocumentURL: true if the URL path
ends with .pdf case-insensitively; else true if a trailing pdf token appears
immediately before end-of-string, a query string, or a fragment; else a HEAD
probe checks Content-Type for application/pdf, with a network failure on the
probe resolving to false. Stated for comparison with looks_like_pdf. -/
def isDocumentURLSpec (probe : String → Option String) (url : String) : Bool :=
  let u := lowerStr url
  if endsDotPdf (pathChars u.data) then true
  else if pdfTokenAux u.data then true
  else
    match probe url with
    | none => false
    | some ct => strContains (lowerStr ct) "application/pdf"

/-! ### URL resolution (the absolutisation branches of the source) -/

/-- Split a URL at the scheme separator, returning the part up to and
including :// in order, and the remainder. -/
def splitSchemeAux : List Char → List Char → Option (List Char × List Char)
  | acc, ':' :: '/' :: '/' :: rest => some (acc.reverse ++ [':', '/', '/'], rest)
  | acc, c :: rest => splitSchemeAux (c :: acc) rest
  | _, [] => none

/-- Scheme plus authority of a URL: everything up to the first slash after
the scheme separator. -/
def schemeAuthL (l : List Char) : List Char :=
  match splitSchemeAux [] l with
  | some (pre, rest) => pre ++ rest.takeWhile (fun c => !(c == '/'))
  | none => l

/-- The base URL up to and including its last slash. -/
def dirOfL (l : List Char) : List Char :=
  (l.reverse.dropWhile (fun c => !(c == '/'))).reverse

/-- Model of the library function urllib.parse.urljoin restricted to the
reference shapes the classifier feeds it: root-relative references resolve
against the scheme and authority of the base, other relative references
resolve against the directory of the base. -/
def urljoin (base ref : String) : String :=
  if startsWithStr ref "/" then String.mk (schemeAuthL base.data) ++ ref
  else String.mk (dirOfL base.data) ++ ref

/-- The absolutisation branches repeated in parse_links and in
extract_attachments_from_agenda (source lines 110-115, 159-164, 213-218). -/
def absolutize (pageURL href : String) : String :=
  if startsWithStr href "//" then "https:" ++ href
  else if startsWithStr href "/" then urljoin pageURL href
  else if !startsWithStr href "http" then urljoin pageURL href
  else href

/-! ### Configuration constants (source lines 11-14) -/

def BASE : String := "https://sammantraden.huddinge.se/search"
def PAGE_SIZE : Nat := 100
def MAX_PAGES : Nat := 60

/-- The agenda page markers of is_agenda_url (source lines 134-135). -/
def is_agenda_url (u : String) : Bool :=
  strContains u "/committees/" || strContains u "/agenda" ||
  strContains u "/namnder-styrelser/" || strContains u "/welcome-"

/-! ### HTML document model

A parsed page is a tree of element nodes and text nodes, the shape
BeautifulSoup exposes to the source. An element optionally carries an href
attribute (the only attribute the source reads); selecting a[href] keeps
elements whose tag is a and whose href attribute is present. -/

inductive HNode where
  | textNode (s : String)
  | elem (tag : String) (href : Option String) (children : List HNode)

mutual

/-- The stripped text pieces of a subtree in document order, as the
stripped_strings traversal behind get_text(sep, strip=True). -/
def textPieces : HNode → List String
  | .textNode s => [stripStr s]
  | .elem _ _ cs => textPiecesList cs

/-- textPieces over a list of children. -/
def textPiecesList : List HNode → List String
  | [] => []
  | c :: cs => textPieces c ++ textPiecesList cs

end

/-- Model of node.get_text(" ", strip=True): strip every text piece, drop
the empty ones, join the rest with single spaces. -/
def getText (n : HNode) : String :=
  sepJoin " " ((textPieces n).filter (fun s => !(s == "")))

mutual

/-- Model of soup.find_all(True): every element node in document order,
the root element included. -/
def allTags : HNode → List HNode
  | .textNode _ => []
  | .elem t h cs => .elem t h cs :: allTagsList cs

/-- allTags over a list of children. -/
def allTagsList : List HNode → List HNode
  | [] => []
  | c :: cs => allTags c ++ allTagsList cs

end

mutual

/-- Model of soup.select("a[href]") enriched with ancestry: every element
with tag a and a present href attribute, in document order, paired with its
href attribute and its ancestor chain (nearest ancestor first). -/
def anchorsWithAnc (anc : List HNode) : HNode → List (String × HNode × List HNode)
  | .textNode _ => []
  | .elem t h cs =>
    (if t == "a" then
       match h with
       | some hr => [(hr, HNode.elem t h cs, anc)]
       | none => []
     else []) ++ anchorsList (HNode.elem t h cs :: anc) cs

/-- anchorsWithAnc over a list of children. -/
def anchorsList (anc : List HNode) : List HNode → List (String × HNode × List HNode)
  | [] => []
  | c :: cs => anchorsWithAnc anc c ++ anchorsList anc cs

end

/-- Model of tag.select("a[href]") on a block: anchor descendants of the
node (the node itself excluded), with their href attributes. -/
def descAnchorNodes (n : HNode) : List (String × HNode) :=
  match n with
  | .textNode _ => []
  | .elem _ _ cs => (anchorsList [] cs).map (fun t => (t.1, t.2.1))

/-! ### Link classification (parse_links, source lines 88-176) -/

/-- An emitted item: title, url, source tag. -/
abbrev It := String × String × String

/-- The block text of an anchor (source lines 124-131): start from the
normalised anchor text, walk up to two ancestor levels, and at each level
replace the running value by the normalised text of the ancestor when that
text is nonempty. -/
def blockTextOf (titleText : String) (anc : List HNode) : String :=
  match anc with
  | [] => titleText
  | p :: rest =>
    let t1 := normPL (getText p)
    let b1 := if t1 == "" then titleText else t1
    match rest with
    | [] => b1
    | g :: _ =>
      let t2 := normPL (getText g)
      if t2 == "" then b1 else t2

/-- The href attributes of the anchors inside the grandparent block of an
anchor (source lines 148-154): blk = a.parent.parent when it exists,
candidate anchors are the a[href] descendants of blk. -/
def grandAnchorHrefs (anc : List HNode) : List String :=
  match anc with
  | _ :: g :: _ => (descAnchorNodes g).map (fun t => t.1)
  | _ => []

/-- The contribution of one anchor to the two raw output lists of
parse_links (direct links, agenda pages), before the final deduplication:
the body of the loop at source lines 104-170. -/
def anchorStep (probe : String → Option String) (pageURL : String)
    (href0 : String) (a : HNode) (anc : List HNode) : List It × List String :=
  let href1 := stripStr href0
  if href1 == "" then ([], [])
  else
    let href := absolutize pageURL href1
    if startsWithStr href BASE && strContains href "pindex=" && strContains href "psize=" then
      ([], [])
    else
      let titleRaw := getText a
      let titleText := normPL titleRaw
      let bt := blockTextOf titleText anc
      let d1 :=
        if strContains titleText "solfagraskolan" then
          [(collapseWs titleRaw, href, "direct-title")]
        else []
      let d2 :=
        if strContains bt "solfagraskolan" && looks_like_pdf probe href then
          [(orDefault (collapseWs titleRaw) "Bilaga", href, "direct-block")]
        else []
      let a3 :=
        if strContains bt "solfagraskolan" then
          (grandAnchorHrefs anc).filterMap (fun ch0 =>
            let ch1 := stripStr ch0
            if ch1 == "" then none
            else
              let ch := absolutize pageURL ch1
              if is_agenda_url ch && !looks_like_pdf probe ch then some ch else none)
        else []
      let a4 :=
        if strContains bt "solfagraskolan" && is_agenda_url href && !looks_like_pdf probe href then
          [href]
        else []
      (d1 ++ d2, a3 ++ a4)

/-- Generic first-occurrence deduplication with an explicit seen set, the
pattern of the source at lines 172-175, 221-223 and 262-267: keep an element
when its key is not in seen, adding kept keys to seen as the list is walked.
Returns the kept elements and the final seen set. -/
def dedupBy {α : Type} (key : α → String) : List String → List α → List α × List String
  | seen, [] => ([], seen)
  | seen, x :: xs =>
    if key x ∈ seen then dedupBy key seen xs
    else
      let r := dedupBy key (key x :: seen) xs
      (x :: r.1, r.2)

/-- First-occurrence deduplication of a list of URLs. -/
def firstOccur (l : List String) : List String := (dedupBy (fun u => u) [] l).1

/-- The two raw lists parse_links accumulates before deduplication, in
anchor order: the loop of source lines 104-170. -/
def classifyRaw (probe : String → Option String) (page : HNode) (pageURL : String) :
    List It × List String :=
  let contribs := (anchorsWithAnc [] page).map
    (fun t => anchorStep probe pageURL t.1 t.2.1 t.2.2)
  (contribs.flatMap (fun c => c.1), contribs.flatMap (fun c => c.2))

/-- Embedding of parse_links (source lines 88-176). The final deduplication
at lines 172-175 filters direct_links first and then agenda_pages against
the same shared seen set. -/
def parse_links (probe : String → Option String) (page : HNode) (pageURL : String) :
    List It × List String :=
  let raw := classifyRaw probe page pageURL
  let d := dedupBy (fun p => p.2.1) [] raw.1
  let a := dedupBy (fun u => u) d.2 raw.2
  (d.1, a.1)

/-! ### Attachment harvesting (extract_attachments_from_agenda, 180-229) -/

/-- Approximation of the Unicode word characters of the regex module used by
the word-boundary test: ASCII letters, digits, underscore, and the non-ASCII
letters appearing in the Swedish keywords (every code point from U+00C0 is
treated as a word character). -/
def isWordChar (c : Char) : Bool := c.isAlphanum || c == '_' || 0xC0 ≤ c.val.toNat

/-- Consume the first list as an exact leading block of the second,
returning the remainder on success. -/
def dropExact : List Char → List Char → Option (List Char)
  | [], l => some l
  | _ :: _, [] => none
  | a :: as, b :: bs => if a == b then dropExact as bs else none

/-- Does one of the words match at the head of the list with a word
boundary on both sides, prev being the character just before the head. -/
def wordHit (words : List (List Char)) (prev : Option Char) (l : List Char) : Bool :=
  words.any (fun w =>
    match dropExact w l with
    | none => false
    | some rest =>
      (match prev with
       | none => true
       | some pc => !isWordChar pc) &&
      (match rest with
       | [] => true
       | d :: _ => !isWordChar d))

/-- The word-boundary search tried at every suffix position. -/
def wordSearchAux (words : List (List Char)) : Option Char → List Char → Bool
  | _, [] => false
  | prev, c :: rest => wordHit words prev (c :: rest) || wordSearchAux words (some c) rest

/-- The alternatives of the section regex at source line 200. -/
def kwWords : List (List Char) :=
  ["punkt".data, "genomförandebeslut".data, "inriktningsbeslut".data, "solfagraskolan".data]

/-- Model of re.search for the word-bounded alternation at source line 200. -/
def reWordSearch (s : String) : Bool := wordSearchAux kwWords none s.data

/-- The section candidate test of source lines 197-201: the lowered raw text
contains bilagor, or the word-bounded keyword alternation matches. -/
def sectionHit (n : HNode) : Bool :=
  let ltxt := lowerStr (getText n)
  strContains ltxt "bilagor" || reWordSearch ltxt

/-- The qualifying links of one candidate section (source lines 209-225,
before the shared seen check): anchors inside the section whose stripped
href is nonempty and whose absolutised target looks like a PDF or textually
contains document or attachment. -/
def sectionItems (probe : String → Option String) (url : String) (sec : HNode) : List It :=
  (descAnchorNodes sec).filterMap (fun an =>
    let href1 := stripStr an.1
    if href1 == "" then none
    else
      let href := absolutize url href1
      if looks_like_pdf probe href || strContains (lowerStr href) "document" ||
          strContains (lowerStr href) "attachment" then
        some (orDefault (collapseWs (getText an.2)) "Bilaga", href, "via-agenda")
      else none)

/-- The raw emissions of the harvester over a fetched page, in section and
anchor order, before the shared per-page deduplication: sections are the
find_all(True) tags passing sectionHit whose collapsed lowered text contains
solfagraskolan (source lines 196-207). -/
def rawAttachments (probe : String → Option String) (url : String) (page : HNode) : List It :=
  (((allTags page).filter sectionHit).filter
      (fun sec => strContains (lowerStr (collapseWs (getText sec))) "solfagraskolan")).flatMap
    (sectionItems probe url)

/-- Embedding of extract_attachments_from_agenda (source lines 180-229).
The fetched argument models the requests.get call, raise_for_status, and the
BeautifulSoup parse together: an error value is any exception raised there,
which the try block at lines 186-227 catches, yielding the empty list. On a
fetched page the seen set at lines 205, 221-223 deduplicates the raw
emissions across sections by URL, first occurrence winning. The function is
total: no failure propagates to the caller. -/
def extract_attachments_from_agenda (probe : String → Option String)
    (fetched : Except Unit HNode) (url : String) : List It :=
  match fetched with
  | .error _ => []
  | .ok page => (dedupBy (fun x => x.2.1) [] (rawAttachments probe url page)).1

/-! ### Orchestration (collect_all, source lines 233-268) -/

/-- One run of the pagination loop of collect_all (source lines 241-250),
with fuel counting the remaining page indices up to MAX_PAGES. The fetch
oracle models fetch_page: an error value is a raised timeout or
raise_for_status exception, which propagates. Accumulates the direct items,
the agenda candidates, and the trace of page indices fetched so far. -/
def paginateAux (probe : String → Option String)
    (fetch : Nat → Except Unit (HNode × String)) :
    Nat → Nat → List It → List String → List Nat →
    Except Unit (List It × List String × List Nat)
  | _, 0, d, a, t => .ok (d, a, t)
  | p, fuel + 1, d, a, t =>
    match fetch p with
    | .error e => .error e
    | .ok (content, url) =>
      let r := parse_links probe content url
      let d2 := d ++ r.1
      let a2 := a ++ r.2
      let t2 := t ++ [p]
      if p = 1 ∧ r.1.length + r.2.length < PAGE_SIZE then .ok (d2, a2, t2)
      else if r.1.length + r.2.length = 0 then .ok (d2, a2, t2)
      else paginateAux probe fetch (p + 1) fuel d2 a2 t2

/-- The pagination phase of collect_all: pages 1 up to MAX_PAGES. -/
def paginate (probe : String → Option String)
    (fetch : Nat → Except Unit (HNode × String)) :
    Except Unit (List It × List String × List Nat) :=
  paginateAux probe fetch 1 MAX_PAGES [] [] []

/-- The agenda loop of collect_all (source lines 252-259): walk the
candidate list, skip URLs already seen, harvest the rest in order. Returns
the accumulated attachments, the list of candidate pages actually followed
in order, and the final seen set. The followed component instruments which
agenda pages the loop fetches. -/
def harvestLoop (probe : String → Option String)
    (afetch : String → Except Unit HNode) :
    List String → List String → List It × List String × List String
  | [], seen => ([], [], seen)
  | ap :: rest, seen =>
    if ap ∈ seen then harvestLoop probe afetch rest seen
    else
      let items := extract_attachments_from_agenda probe (afetch ap) ap
      let r := harvestLoop probe afetch rest (ap :: seen)
      (items ++ r.1, ap :: r.2.1, r.2.2)

/-- The merge of collect_all (source lines 261-267): deduplicate by URL
with first occurrence winning. -/
def mergeDedup (l : List It) : List It := (dedupBy (fun x => x.2.1) [] l).1

/-- Embedding of collect_all (source lines 233-268): paginate, harvest the
deduplicated agenda candidates, then merge direct items followed by
attachments and deduplicate by URL. The politeness sleeps of the source have
no observable effect in the model and are omitted. -/
def collect_all (probe : String → Option String)
    (fetch : Nat → Except Unit (HNode × String))
    (afetch : String → Except Unit HNode) : Except Unit (List It) :=
  match paginate probe fetch with
  | .error e => .error e
  | .ok (direct, agendas, _) =>
    .ok (mergeDedup (direct ++ (harvestLoop probe afetch agendas []).1))

/-- The number of classified items one fetched page yields, the quantity
len(d) + len(a) tested by the termination conditions at lines 246-249. -/
def classifiedCount (probe : String → Option String) (content : HNode) (url : String) : Nat :=
  (parse_links probe content url).1.length + (parse_links probe content url).2.length

/-- The classified-item count of a page index under a fetch oracle, absent
when the fetch fails. -/
def countOf (probe : String → Option String)
    (fetch : Nat → Except Unit (HNode × String)) (p : Nat) : Option Nat :=
  match fetch p with
  | .error _ => none
  | .ok (content, url) => some (classifiedCount probe content url)

/-- A page index at which the pagination loop does not stop: its fetch
succeeds, it yields a nonzero count, and when it is page 1 the count is not
below PAGE_SIZE. -/
def nonstop (probe : String → Option String)
    (fetch : Nat → Except Unit (HNode × String)) (p : Nat) : Prop :=
  match fetch p with
  | .error _ => False
  | .ok (content, url) =>
    classifiedCount probe content url ≠ 0 ∧
    (p = 1 → ¬ classifiedCount probe content url < PAGE_SIZE)

/-- The agenda pages collect_all actually harvests, in order: the followed
component of the agenda loop. -/
def harvestedAgendaPages (probe : String → Option String)
    (fetch : Nat → Except Unit (HNode × String))
    (afetch : String → Except Unit HNode) : Except Unit (List String) :=
  match paginate probe fetch with
  | .error e => .error e
  | .ok (_, agendas, _) => .ok (harvestLoop probe afetch agendas []).2.1

/-! ### History store and main (source lines 34-44 and 345-365) -/

/-- One persisted item record, the schema written at source lines 356-362. -/
structure HistItem where
  url : String
  title : String
  detected_at : String
  last_modified : Option String
  source : String
deriving DecidableEq

/-- The state of the history file: none models a missing file, an error
value models a file whose read or JSON parse raises, an ok value models a
well-formed file holding the item list. -/
abbrev FS := Option (Except Unit (List HistItem))

/-- Embedding of load_history (source lines 34-39): a missing file yields
the empty history, otherwise the json.load result is returned as is, a parse
or read exception propagating to the caller. -/
def load_history (fs : FS) : Except Unit (List HistItem) :=
  match fs with
  | none => .ok []
  | some r => r

/-- Embedding of save_history (source lines 41-44): a full overwrite of the
file with the given history. -/
def save_history (h : List HistItem) : FS := some (.ok h)

/-- The record appended for one new item (source lines 354-362): the
last_modified field is resolved through head_last_modified only when
looks_like_pdf holds, lm being the oracle for head_last_modified. -/
def mkItem (probe : String → Option String) (lm : String → Option String)
    (now : String) (x : It) : HistItem :=
  { url := x.2.1, title := x.1, detected_at := now,
    last_modified := if looks_like_pdf probe x.2.1 then lm x.2.1 else none,
    source := x.2.2 }

/-- Embedding of main (source lines 345-365), the rendering of the static
site excluded as an external collaborator. Returns the run outcome and the
file state after the run: on any propagated exception the file is returned
unchanged, since save_history runs only after collect_all succeeds. -/
def main (probe : String → Option String)
    (fetch : Nat → Except Unit (HNode × String))
    (afetch : String → Except Unit HNode)
    (lm : String → Option String) (now : String) (fs : FS) :
    Except Unit Unit × FS :=
  match load_history fs with
  | .error e => (.error e, fs)
  | .ok hist =>
    match collect_all probe fetch afetch with
    | .error e => (.error e, fs)
    | .ok allNow =>
      let known := hist.map (fun it => it.url)
      let newItems := allNow.filter (fun x => decide (x.2.1 ∉ known))
      let hist2 := hist ++ newItems.map (mkItem probe lm now)
      (.ok (), save_history hist2)

/-! ### Concrete instances used by witnesses and counterexamples -/

/-- A probe oracle whose every HEAD request fails on the network. -/
def probe0 : String → Option String := fun _ => none

/-- An agenda fetch oracle whose every request raises. -/
def afetch0 : String → Except Unit HNode := fun _ => .error ()

/-- A head_last_modified oracle returning no header. -/
def lmNone : String → Option String := fun _ => none

/-- A fixed run timestamp. -/
def now0 : String := "2026-10-12T00:00+00:00"

/-- The resolved URL of the first search page. -/
def urlP1 : String := "https://sammantraden.huddinge.se/search"

/-- An agenda page whose single matching section, the root block, mentions
the keyword and the bilagor marker and contains five document links with
distinct URLs. -/
def pageC1 : HNode :=
  .elem "div" none
    [.textNode "Punkt 7 Solfagraskolan bilagor",
     .elem "a" (some "https://x.se/files/a.pdf") [.textNode "Bilaga A"],
     .elem "a" (some "https://x.se/files/b.pdf") [.textNode "Bilaga B"],
     .elem "a" (some "https://x.se/files/c.pdf") [.textNode "Bilaga C"],
     .elem "a" (some "https://x.se/files/d.pdf") [.textNode "Bilaga D"],
     .elem "a" (some "https://x.se/files/e.pdf") [.textNode "Bilaga E"]]

/-- The URL of the agenda page pageC1. -/
def urlC1 : String := "https://x.se/committees/77"

/-- A search results page whose block mentions the keyword and which links
five distinct committee pages, so classification yields five agenda
candidates and no direct items. -/
def pageC2 : HNode :=
  .elem "div" none
    [.textNode "Solfagraskolan handlingar",
     .elem "a" (some "https://x.se/committees/c1") [.textNode "Arende A"],
     .elem "a" (some "https://x.se/committees/c2") [.textNode "Arende B"],
     .elem "a" (some "https://x.se/committees/c3") [.textNode "Arende C"],
     .elem "a" (some "https://x.se/committees/c4") [.textNode "Arende D"],
     .elem "a" (some "https://x.se/committees/c5") [.textNode "Arende E"]]

/-- A search fetch oracle serving pageC2 as page 1 and failing on any other
page index, so a fetch beyond page 1 would be observable as an error. -/
def fetchC2 : Nat → Except Unit (HNode × String) :=
  fun n => if n = 1 then .ok (pageC2, urlP1) else .error ()

/-- A page holding one anchor whose text mentions the keyword and whose
target is a committee page, so the same URL is emitted both as a direct
item and, twice, as an agenda candidate. -/
def pageC3 : HNode :=
  .elem "div" none
    [.elem "p" none
      [.elem "a" (some "https://x.se/committees/k1") [.textNode "Solfagraskolan protokoll"]]]

/-- A search fetch oracle whose every fetch raises. -/
def fetchFail : Nat → Except Unit (HNode × String) := fun _ => .error ()

/-- A starting history with one item. -/
def item0 : HistItem :=
  { url := "https://x.se/old.pdf", title := "Gammal bilaga",
    detected_at := "2026-01-01T00:00+00:00", last_modified := none,
    source := "direct-title" }

/-- A well-formed history file holding item0. -/
def fs0 : FS := some (.ok [item0])

/-- A single-anchor results page whose anchor text mentions the keyword and
whose target is a document. -/
def pageC7 : HNode :=
  .elem "a" (some "https://x.se/c7.pdf") [.textNode "Solfagraskolan plan"]

/-- A search fetch oracle serving pageC7 as page 1 and failing afterwards. -/
def fetchC7 : Nat → Except Unit (HNode × String) :=
  fun n => if n = 1 then .ok (pageC7, urlP1) else .error ()

/-- A single-anchor results page for the history witness run. -/
def pageC9 : HNode :=
  .elem "a" (some "https://x.se/s9.pdf") [.textNode "Solfagraskolan beslut"]

/-- A search fetch oracle serving pageC9 as page 1 and failing afterwards. -/
def fetchC9 : Nat → Except Unit (HNode × String) :=
  fun n => if n = 1 then .ok (pageC9, urlP1) else .error ()

/-- An empty well-formed history file. -/
def fsEmpty : FS := some (.ok [])

/-- The record the witness run over pageC9 appends. -/
def item9 : HistItem :=
  { url := "https://x.se/s9.pdf", title := "Solfagraskolan beslut",
    detected_at := now0, last_modified := none, source := "direct-title" }

/-! ## Helper lemmas -/

/-- Elements kept by dedupBy have keys outside the initial seen set. -/
theorem dedupBy_kept_not_seen {α : Type} (key : α → String) :
    ∀ (l : List α) (seen : List String) (x : α),
      x ∈ (dedupBy key seen l).1 → key x ∉ seen := by
  intro l
  induction l with
  | nil => intro seen x hx; simp [dedupBy] at hx
  | cons y ys ih =>
    intro seen x hx hmem
    by_cases hy : key y ∈ seen
    · rw [show dedupBy key seen (y :: ys) = dedupBy key seen ys by
        simp [dedupBy, hy]] at hx
      exact ih seen x hx hmem
    · simp only [dedupBy, if_neg hy] at hx
      rcases List.mem_cons.mp hx with rfl | hx2
      · exact hy hmem
      · exact ih (key y :: seen) x hx2 (List.mem_cons_of_mem _ hmem)

/-- The keys of the elements kept by dedupBy have no duplicates. -/
theorem dedupBy_keys_nodup {α : Type} (key : α → String) :
    ∀ (l : List α) (seen : List String), ((dedupBy key seen l).1.map key).Nodup := by
  intro l
  induction l with
  | nil => intro seen; simp [dedupBy]
  | cons y ys ih =>
    intro seen
    by_cases hy : key y ∈ seen
    · simpa [dedupBy, hy] using ih seen
    · simp only [dedupBy, if_neg hy, List.map_cons, List.nodup_cons]
      refine ⟨fun hk => ?_, ih (key y :: seen)⟩
      rcases List.mem_map.mp hk with ⟨z, hz, hkz⟩
      exact dedupBy_kept_not_seen key ys (key y :: seen) z hz (by rw [hkz]; exact List.mem_cons_self _ _)

/-- The final seen set of dedupBy is the kept keys in reverse followed by
the initial seen set. -/
theorem dedupBy_seen_eq {α : Type} (key : α → String) :
    ∀ (l : List α) (seen : List String),
      (dedupBy key seen l).2 = ((dedupBy key seen l).1.map key).reverse ++ seen := by
  intro l
  induction l with
  | nil => intro seen; simp [dedupBy]
  | cons y ys ih =>
    intro seen
    by_cases hy : key y ∈ seen
    · simpa [dedupBy, hy] using ih seen
    · simp only [dedupBy, if_neg hy, List.map_cons, List.reverse_cons]
      rw [ih (key y :: seen)]
      simp

/-- Every input key survives into the kept keys or was already seen. -/
theorem dedupBy_mem_keys {α : Type} (key : α → String) :
    ∀ (l : List α) (seen : List String) (k : String),
      k ∈ l.map key → k ∈ (dedupBy key seen l).1.map key ∨ k ∈ seen := by
  intro l
  induction l with
  | nil => intro seen k hk; simp at hk
  | cons y ys ih =>
    intro seen k hk
    rcases List.mem_cons.mp hk with rfl | hk2
    · by_cases hy : key y ∈ seen
      · exact Or.inr hy
      · exact Or.inl (by simp [dedupBy, if_neg hy])
    · by_cases hy : key y ∈ seen
      · simpa [dedupBy, hy] using ih seen k hk2
      · rcases ih (key y :: seen) k hk2 with hkept | hseen
        · exact Or.inl (by simp [dedupBy, if_neg hy]; right; simpa using hkept)
        · rcases List.mem_cons.mp hseen with rfl | hs
          · exact Or.inl (by simp [dedupBy, if_neg hy])
          · exact Or.inr hs

/-- A key already in the seen set never appears among the kept elements. -/
theorem dedupBy_filter_seen {α : Type} (key : α → String) :
    ∀ (l : List α) (seen : List String) (u : String), u ∈ seen →
      (dedupBy key seen l).1.filter (fun x => key x == u) = [] := by
  intro l
  induction l with
  | nil => intro seen u _; simp [dedupBy]
  | cons y ys ih =>
    intro seen u hu
    by_cases hy : key y ∈ seen
    · simpa [dedupBy, hy] using ih seen u hu
    · have hne : ¬ key y = u := fun h => hy (h ▸ hu)
      simp only [dedupBy, if_neg hy, List.filter_cons]
      rw [if_neg (by simpa using hne)]
      exact ih (key y :: seen) u (List.mem_cons_of_mem _ hu)

/-- For a key outside the seen set, the kept elements with that key are
exactly the first input element carrying it. -/
theorem dedupBy_filter_key {α : Type} (key : α → String) :
    ∀ (l : List α) (seen : List String) (u : String), u ∉ seen →
      (dedupBy key seen l).1.filter (fun x => key x == u) =
        (l.find? (fun x => key x == u)).toList := by
  intro l
  induction l with
  | nil => intro seen u _; simp [dedupBy]
  | cons y ys ih =>
    intro seen u hu
    by_cases hy : key y ∈ seen
    · have hne : ¬ key y = u := fun h => hu (h ▸ hy)
      rw [show dedupBy key seen (y :: ys) = dedupBy key seen ys by simp [dedupBy, hy]]
      rw [List.find?_cons_of_neg _ (by simpa using hne)]
      exact ih seen u hu
    · by_cases hk : key y = u
      · simp only [dedupBy, if_neg hy, List.filter_cons]
        rw [if_pos (by simpa using hk), List.find?_cons_of_pos _ (by simpa using hk)]
        rw [dedupBy_filter_seen key ys (key y :: seen) u (by rw [hk]; exact List.mem_cons_self _ _)]
        rfl
      · simp only [dedupBy, if_neg hy, List.filter_cons]
        rw [if_neg (by simpa using hk), List.find?_cons_of_neg _ (by simpa using hk)]
        exact ih (key y :: seen) u (by
          intro hmem
          rcases List.mem_cons.mp hmem with h | h
          · exact hk h.symm
          · exact hu h)

/-- The agenda loop follows exactly the candidates dedupBy keeps, in
order. -/
theorem harvestLoop_followed (probe : String → Option String)
    (afetch : String → Except Unit HNode) :
    ∀ (q seen : List String),
      (harvestLoop probe afetch q seen).2.1 = (dedupBy (fun u => u) seen q).1 := by
  intro q
  induction q with
  | nil => intro seen; simp [harvestLoop, dedupBy]
  | cons ap rest ih =>
    intro seen
    by_cases hap : ap ∈ seen
    · simp [harvestLoop, dedupBy, hap, ih seen]
    · simp [harvestLoop, dedupBy, hap, ih (ap :: seen)]

/-- The pdf token search is monotone under extending the string to the
left. -/
theorem pdfTokenAux_cons (c : Char) (l : List Char) :
    pdfTokenAux l = true → pdfTokenAux (c :: l) = true := by
  intro h
  simp [pdfTokenAux, h]

/-- A string ending in .pdf matches the pdf token search. -/
theorem endsDotPdf_imp_token : ∀ l : List Char, endsDotPdf l = true → pdfTokenAux l = true := by
  intro l
  induction l with
  | nil => simp [endsDotPdf]
  | cons c rest ih =>
    intro h
    rw [endsDotPdf, Bool.or_eq_true] at h
    rcases h with h | h
    · have he : c :: rest = ['.', 'p', 'd', 'f'] := by simpa using h
      rw [he]; decide
    · exact pdfTokenAux_cons c rest (ih h)

/-- The head of a nonempty dropWhile result fails the predicate. -/
theorem dropWhile_head_false {α : Type} (p : α → Bool) :
    ∀ (l : List α) (x : α) (xs : List α), l.dropWhile p = x :: xs → p x = false := by
  intro l
  induction l with
  | nil => intro x xs h; simp [List.dropWhile] at h
  | cons a as ih =>
    intro x xs h
    by_cases ha : p a = true
    · rw [List.dropWhile_cons, if_pos ha] at h
      exact ih x xs h
    · rw [List.dropWhile_cons, if_neg ha] at h
      cases h
      simpa using ha

/-- A URL whose path part ends in .pdf matches the pdf token search on the
whole URL: the path is followed by nothing, a query or a fragment. -/
theorem pathEnds_imp_token : ∀ l : List Char, endsDotPdf (pathChars l) = true → pdfTokenAux l = true := by
  intro l
  induction l with
  | nil => simp [pathChars, endsDotPdf]
  | cons c rest ih =>
    intro h
    by_cases hc : (!(c == '?' || c == '#')) = true
    · rw [pathChars, List.takeWhile_cons, if_pos hc] at h
      rw [endsDotPdf, Bool.or_eq_true] at h
      rcases h with h | h
      · have he : c :: List.takeWhile (fun c => !(c == '?' || c == '#')) rest
            = ['.', 'p', 'd', 'f'] := by simpa using h
        have hcdot : c = '.' := by
          have := congrArg (fun l => l.headI) he
          simpa using this
        have htk : List.takeWhile (fun c => !(c == '?' || c == '#')) rest = ['p', 'd', 'f'] := by
          have := congrArg (fun l => l.tail) he
          simpa using this
        have hrest : rest = 'p' :: 'd' :: 'f' :: rest.dropWhile (fun c => !(c == '?' || c == '#')) := by
          conv_lhs => rw [← List.takeWhile_append_dropWhile
            (p := fun c => !(c == '?' || c == '#')) (l := rest)]
          rw [htk]
          rfl
        apply pdfTokenAux_cons
        rw [hrest]
        cases hdw : rest.dropWhile (fun c => !(c == '?' || c == '#')) with
        | nil => decide
        | cons d ds =>
          have hd := dropWhile_head_false _ rest d ds hdw
          have hd2 : (d == '?' || d == '#') = true := by
            cases hb : (d == '?' || d == '#')
            · rw [hb] at hd; simp at hd
            · rfl
          simp [pdfTokenAux, pdfAtHead, hd2]
      · exact pdfTokenAux_cons c rest (ih (by rwa [pathChars]))
    · rw [pathChars, List.takeWhile_cons, if_neg hc] at h
      simp [endsDotPdf] at h

/-- Unfolding the pagination loop at fuel zero. -/
theorem paginateAux_zero (probe : String → Option String)
    (fetch : Nat → Except Unit (HNode × String)) (p : Nat)
    (d : List It) (a : List String) (t : List Nat) :
    paginateAux probe fetch p 0 d a t = .ok (d, a, t) := rfl

/-- Unfolding the pagination loop on a failing fetch. -/
theorem paginateAux_succ_err (probe : String → Option String)
    (fetch : Nat → Except Unit (HNode × String)) (p fuel : Nat)
    (d : List It) (a : List String) (t : List Nat) (e : Unit)
    (hf : fetch p = .error e) :
    paginateAux probe fetch p (fuel + 1) d a t = .error e := by
  rw [paginateAux, hf]

/-- Unfolding the pagination loop on a successful fetch. -/
theorem paginateAux_succ_ok (probe : String → Option String)
    (fetch : Nat → Except Unit (HNode × String)) (p fuel : Nat)
    (d : List It) (a : List String) (t : List Nat) (content : HNode) (url : String)
    (hf : fetch p = .ok (content, url)) :
    paginateAux probe fetch p (fuel + 1) d a t =
      (if p = 1 ∧ classifiedCount probe content url < PAGE_SIZE then
         .ok (d ++ (parse_links probe content url).1, a ++ (parse_links probe content url).2, t ++ [p])
       else if classifiedCount probe content url = 0 then
         .ok (d ++ (parse_links probe content url).1, a ++ (parse_links probe content url).2, t ++ [p])
       else paginateAux probe fetch (p + 1) fuel
         (d ++ (parse_links probe content url).1) (a ++ (parse_links probe content url).2) (t ++ [p])) := by
  rw [paginateAux, hf]
  rfl

/-- The trace of fetched pages grows by at most the fuel. -/
theorem paginateAux_trace_le (probe : String → Option String)
    (fetch : Nat → Except Unit (HNode × String)) :
    ∀ (fuel p : Nat) (d : List It) (a : List String) (t : List Nat)
      (res : List It × List String × List Nat),
      paginateAux probe fetch p fuel d a t = .ok res → res.2.2.length ≤ t.length + fuel := by
  intro fuel
  induction fuel with
  | zero =>
    intro p d a t res h
    rw [paginateAux_zero] at h
    cases h
    simp
  | succ n ih =>
    intro p d a t res h
    cases hf : fetch p with
    | error e =>
      rw [paginateAux_succ_err probe fetch p n d a t e hf] at h
      cases h
    | ok cu =>
      obtain ⟨content, url⟩ := cu
      rw [paginateAux_succ_ok probe fetch p n d a t content url hf] at h
      split_ifs at h
      · cases h
        simp only [List.length_append, List.length_cons, List.length_nil]
        omega
      · cases h
        simp only [List.length_append, List.length_cons, List.length_nil]
        omega
      · have := ih (p + 1) _ _ (t ++ [p]) res h
        simp only [List.length_append, List.length_cons, List.length_nil] at this
        omega

/-- When a fetched page yields zero classified items, it is the last page
the loop fetches. -/
theorem paginateAux_zero_stop (probe : String → Option String)
    (fetch : Nat → Except Unit (HNode × String)) :
    ∀ (fuel p : Nat) (d : List It) (a : List String) (t : List Nat)
      (res : List It × List String × List Nat),
      paginateAux probe fetch p fuel d a t = .ok res →
      ∀ q, q ∈ res.2.2 → q ∉ t → countOf probe fetch q = some 0 →
        res.2.2.getLast? = some q := by
  intro fuel
  induction fuel with
  | zero =>
    intro p d a t res h q hq hqt _
    rw [paginateAux_zero] at h
    cases h
    exact absurd hq hqt
  | succ n ih =>
    intro p d a t res h q hq hqt hcount
    cases hf : fetch p with
    | error e =>
      rw [paginateAux_succ_err probe fetch p n d a t e hf] at h
      cases h
    | ok cu =>
      obtain ⟨content, url⟩ := cu
      rw [paginateAux_succ_ok probe fetch p n d a t content url hf] at h
      split_ifs at h with h1 h2
      · cases h
        have hqp : q = p := by
          rcases List.mem_append.mp hq with h | h
          · exact absurd h hqt
          · simpa using h
        rw [hqp]
        exact List.getLast?_concat t
      · cases h
        have hqp : q = p := by
          rcases List.mem_append.mp hq with h | h
          · exact absurd h hqt
          · simpa using h
        rw [hqp]
        exact List.getLast?_concat t
      · have hqp : q ≠ p := by
          intro hqp
          rw [hqp] at hcount
          rw [countOf, hf] at hcount
          have : classifiedCount probe content url = 0 := by
            simpa using hcount
          exact h2 this
        refine ih (p + 1) _ _ (t ++ [p]) res h q hq ?_ hcount
        intro hmem
        rcases List.mem_append.mp hmem with hmem2 | hmem2
        · exact hqt hmem2
        · exact hqp (by simpa using hmem2)

/-- When every remaining page index is a nonstop page, the loop runs
through all of them in order. -/
theorem paginateAux_all_nonstop (probe : String → Option String)
    (fetch : Nat → Except Unit (HNode × String)) :
    ∀ (fuel p : Nat) (d : List It) (a : List String) (t : List Nat),
      (∀ q, p ≤ q → q < p + fuel → nonstop probe fetch q) →
      ∃ d2 a2, paginateAux probe fetch p fuel d a t = .ok (d2, a2, t ++ List.range' p fuel) := by
  intro fuel
  induction fuel with
  | zero =>
    intro p d a t _
    exact ⟨d, a, by simp [paginateAux_zero]⟩
  | succ n ih =>
    intro p d a t h
    have hp := h p (Nat.le_refl p) (by omega)
    unfold nonstop at hp
    cases hf : fetch p with
    | error e => rw [hf] at hp; exact hp.elim
    | ok cu =>
      obtain ⟨content, url⟩ := cu
      rw [hf] at hp
      obtain ⟨hne, h1⟩ := hp
      rw [paginateAux_succ_ok probe fetch p n d a t content url hf]
      rw [if_neg (fun hc => h1 hc.1 hc.2), if_neg hne]
      obtain ⟨d2, a2, hrec⟩ := ih (p + 1) (d ++ (parse_links probe content url).1)
        (a ++ (parse_links probe content url).2) (t ++ [p])
        (fun q hq1 hq2 => h q (by omega) (by omega))
      refine ⟨d2, a2, ?_⟩
      rw [hrec, List.range'_succ]
      simp

/-! ## Claim theorems -/

/-- Claim C8: the document-type detector returns true when the URL path
ends with .pdf case-insensitively, else true when a trailing pdf token
appears immediately before end-of-string, a query string or a fragment,
else falls back to the HEAD probe checking Content-Type for
application/pdf; a probe network failure resolves to false and the function
is total. Stated as equality between the definition read off the spec
wording and the embedded looks_like_pdf. -/
theorem looks_like_pdf_matches_spec (probe : String → Option String) (url : String) :
    isDocumentURLSpec probe url = looks_like_pdf probe url := by
  unfold isDocumentURLSpec looks_like_pdf
  by_cases h2 : pdfTokenAux (lowerStr url).data = true
  · cases hA : endsDotPdf (lowerStr url).data <;>
      cases hB : endsDotPdf (pathChars (lowerStr url).data) <;>
        simp [hA, hB, h2]
  · have h2f : pdfTokenAux (lowerStr url).data = false := by
      simpa using h2
    have hA : endsDotPdf (lowerStr url).data = false := by
      cases hA : endsDotPdf (lowerStr url).data
      · rfl
      · exact absurd (endsDotPdf_imp_token _ hA) (by simp [h2f])
    have hB : endsDotPdf (pathChars (lowerStr url).data) = false := by
      cases hB : endsDotPdf (pathChars (lowerStr url).data)
      · rfl
      · exact absurd (pathEnds_imp_token _ hB) (by simp [h2f])
    simp [hA, hB, h2f]

/-- Claim C7: pagination stops after page 1 when page 1 yields fewer
classified items than PAGE_SIZE, stops after any page yielding zero
classified items (the last page of the trace is then that page), fetches at
most MAX_PAGES pages, and runs through every page up to MAX_PAGES when no
stopping condition fires. -/
theorem pagination_termination (probe : String → Option String)
    (fetch : Nat → Except Unit (HNode × String)) (h1 : HNode) (u1 : String)
    (hf : fetch 1 = Except.ok (h1, u1)) :
    (classifiedCount probe h1 u1 < PAGE_SIZE →
      paginate probe fetch =
        Except.ok ((parse_links probe h1 u1).1, (parse_links probe h1 u1).2, [1])) ∧
    (∀ res, paginate probe fetch = Except.ok res →
      res.2.2.length ≤ MAX_PAGES ∧
      (∀ q, q ∈ res.2.2 → countOf probe fetch q = some 0 → res.2.2.getLast? = some q)) ∧
    ((∀ q, 1 ≤ q → q ≤ MAX_PAGES → nonstop probe fetch q) →
      ∃ d a, paginate probe fetch = Except.ok (d, a, List.range' 1 MAX_PAGES)) := by
  refine ⟨?_, ?_, ?_⟩
  · intro hlt
    unfold paginate
    rw [show MAX_PAGES = 59 + 1 from rfl,
      paginateAux_succ_ok probe fetch 1 59 [] [] [] h1 u1 hf,
      if_pos ⟨rfl, hlt⟩]
    simp
  · intro res hres
    constructor
    · have := paginateAux_trace_le probe fetch MAX_PAGES 1 [] [] [] res hres
      simpa using this
    · intro q hq hc
      exact paginateAux_zero_stop probe fetch MAX_PAGES 1 [] [] [] res hres q hq
        (List.not_mem_nil q) hc
  · intro hall
    obtain ⟨d, a, h⟩ := paginateAux_all_nonstop probe fetch MAX_PAGES 1 [] [] []
      (fun q hq1 hq2 => hall q hq1 (by omega))
    exact ⟨d, a, by simpa using h⟩

/-- Witness for claim C7: a concrete run whose page 1 yields one classified
item, fewer than PAGE_SIZE, so only page 1 is fetched. -/
theorem pagination_termination_witness :
    paginate probe0 fetchC7 =
      Except.ok ((parse_links probe0 pageC7 urlP1).1, (parse_links probe0 pageC7 urlP1).2, [1]) :=
  (pagination_termination probe0 fetchC7 pageC7 urlP1 rfl).1 (by decide)

/-- Claim C4: when the fetch of a primary search page fails, the failure
propagates out of the pagination loop, the run aborts, and the history file
is returned unchanged, save_history never having run. -/
theorem primary_fetch_failure_aborts (probe : String → Option String)
    (fetch : Nat → Except Unit (HNode × String))
    (afetch : String → Except Unit HNode)
    (lm : String → Option String) (now : String) (fs : FS) (e : Unit)
    (h : paginate probe fetch = Except.error e) :
    main probe fetch afetch lm now fs = (Except.error (), fs) := by
  have hc : collect_all probe fetch afetch = Except.error e := by
    unfold collect_all
    rw [h]
  unfold main
  cases hl : load_history fs with
  | error e2 => rfl
  | ok hist => rw [hc]

/-- Witness for claim C4: a run whose every search fetch raises leaves the
one-item history file untouched and returns the error. -/
theorem primary_fetch_failure_aborts_witness :
    main probe0 fetchFail afetch0 lmNone now0 fs0 = (Except.error (), fs0) :=
  primary_fetch_failure_aborts probe0 fetchFail afetch0 lmNone now0 fs0 () rfl

/-- Claim C5: a fetch or parse failure while harvesting one agenda page is
caught inside the harvester and yields the empty item list for that page,
and such failures never abort the run: whenever pagination succeeds,
collect_all succeeds whatever the agenda fetch oracle does. -/
theorem harvest_failure_yields_zero (probe : String → Option String)
    (afetch : String → Except Unit HNode) (url : String) (e : Unit)
    (fetch : Nat → Except Unit (HNode × String))
    (hfail : afetch url = Except.error e) :
    extract_attachments_from_agenda probe (afetch url) url = [] ∧
    ∀ r, paginate probe fetch = Except.ok r →
      ∃ items, collect_all probe fetch afetch = Except.ok items := by
  constructor
  · rw [hfail]
    rfl
  · intro r hr
    obtain ⟨d, ag, tr⟩ := r
    exact ⟨_, by unfold collect_all; rw [hr]⟩

/-- Witness for claim C5: a concrete agenda URL whose fetch raises yields
zero items, and a run whose every agenda fetch raises still completes. -/
theorem harvest_failure_yields_zero_witness :
    extract_attachments_from_agenda probe0 (afetch0 "https://x.se/committees/z")
      "https://x.se/committees/z" = [] ∧
    ∃ items, collect_all probe0 fetchC2 afetch0 = Except.ok items := by
  have h := harvest_failure_yields_zero probe0 afetch0 "https://x.se/committees/z" () fetchC2 rfl
  exact ⟨h.1, h.2 _ rfl⟩

/-- Claim C6: the merged candidate set is the concatenation of direct items
followed by harvested items deduplicated by URL with first occurrence
winning: when the first direct item carrying a URL is found, the merged
list holds exactly that item for the URL, its direct title and source
surviving any later attachment duplicate. -/
theorem merge_direct_precedence (direct att : List It) (t u s : String)
    (h : direct.find? (fun y => y.2.1 == u) = some (t, u, s)) :
    (mergeDedup (direct ++ att)).filter (fun y => y.2.1 == u) = [(t, u, s)] := by
  unfold mergeDedup
  rw [dedupBy_filter_key (fun x => x.2.1) (direct ++ att) [] u (List.not_mem_nil u)]
  rw [List.find?_append, h]
  rfl

/-- Witness for claim C6: a URL present as a direct item and again as a
harvested attachment survives the merge once, with the direct title and
source. -/
theorem merge_direct_precedence_witness :
    (mergeDedup ([("Direkt", "https://x.se/u1.pdf", "direct-title")] ++
        [("Bilaga", "https://x.se/u1.pdf", "via-agenda"),
         ("Annan", "https://x.se/u2.pdf", "via-agenda")])).filter
      (fun y => y.2.1 == "https://x.se/u1.pdf") =
      [("Direkt", "https://x.se/u1.pdf", "direct-title")] :=
  merge_direct_precedence _ _ "Direkt" "https://x.se/u1.pdf" "direct-title" rfl

/-- Counterexample to claim C1: the harvester has no budget parameter; on
an agenda page whose matching section contains five qualifying document
links it returns all five items, so with a claimed remainingBudget of 2 it
neither stays at or below 2 nor returns exactly 2. -/
theorem harvest_budget_counterexample :
    (extract_attachments_from_agenda probe0 (Except.ok pageC1) urlC1).length = 5 ∧
    ¬ (extract_attachments_from_agenda probe0 (Except.ok pageC1) urlC1).length ≤ 2 := by
  decide

/-- Claim C1 as amended: the harvest operation takes no budget and returns
every qualifying document link of the keyword-matching sections,
deduplicated by URL: its output URLs have no duplicates and every raw
emission survives into the output. -/
theorem harvest_no_truncation (probe : String → Option String) (url : String) (page : HNode) :
    ((extract_attachments_from_agenda probe (Except.ok page) url).map (fun x => x.2.1)).Nodup ∧
    ∀ x ∈ rawAttachments probe url page,
      ∃ y ∈ extract_attachments_from_agenda probe (Except.ok page) url, y.2.1 = x.2.1 := by
  constructor
  · exact dedupBy_keys_nodup (fun x => x.2.1) (rawAttachments probe url page) []
  · intro x hx
    have hk : x.2.1 ∈ (rawAttachments probe url page).map (fun y => y.2.1) :=
      List.mem_map_of_mem _ hx
    rcases dedupBy_mem_keys (fun y => y.2.1) (rawAttachments probe url page) [] x.2.1 hk with
      hkept | hseen
    · rcases List.mem_map.mp hkept with ⟨y, hy, hkey⟩
      exact ⟨y, hy, hkey⟩
    · exact absurd hseen (List.not_mem_nil _)

/-- Witness for the amended claim C1: the first qualifying link of the
five-link page survives into the harvest output. -/
theorem harvest_no_truncation_witness :
    ∃ y ∈ extract_attachments_from_agenda probe0 (Except.ok pageC1) urlC1,
      y.2.1 = "https://x.se/files/a.pdf" :=
  (harvest_no_truncation probe0 urlC1 pageC1).2
    ("Bilaga A", "https://x.se/files/a.pdf", "via-agenda") (by decide)

/-- Counterexample to claim C2: with five discovered agenda candidates the
orchestrator harvests all five, not the first two of any fan-out cap. -/
theorem agenda_fanout_counterexample :
    harvestedAgendaPages probe0 fetchC2 afetch0 =
      Except.ok ["https://x.se/committees/c1", "https://x.se/committees/c2",
        "https://x.se/committees/c3", "https://x.se/committees/c4",
        "https://x.se/committees/c5"] ∧
    (["https://x.se/committees/c1", "https://x.se/committees/c2",
        "https://x.se/committees/c3", "https://x.se/committees/c4",
        "https://x.se/committees/c5"] : List String).length = 5 := by
  constructor
  · rfl
  · rfl

/-- Claim C2 as amended: the orchestrator harvests every discovered agenda
candidate, deduplicated by URL with first occurrence winning, in discovery
order, page-1 candidates coming first because pages are processed in order;
no fan-out cap exists. The followed pages of the agenda loop are exactly
the first-occurrence deduplication of the candidate queue. -/
theorem agenda_selection_no_cap (probe : String → Option String)
    (afetch : String → Except Unit HNode) (queue : List String) :
    (harvestLoop probe afetch queue []).2.1 = firstOccur queue :=
  harvestLoop_followed probe afetch queue []

/-- Counterexample to claim C3: a URL emitted both as a direct item and
as an agenda candidate appears in the direct output but not in the agenda
output, because the source deduplicates the agenda list against the same
seen set already holding the direct URLs. -/
theorem classify_shared_dedup_counterexample :
    classifyRaw probe0 pageC3 urlP1 =
      ([("Solfagraskolan protokoll", "https://x.se/committees/k1", "direct-title")],
       ["https://x.se/committees/k1", "https://x.se/committees/k1"]) ∧
    parse_links probe0 pageC3 urlP1 =
      ([("Solfagraskolan protokoll", "https://x.se/committees/k1", "direct-title")], []) := by
  constructor
  · rfl
  · rfl

/-- Claim C3 as amended: classify deduplicates the direct list first and
then the agenda list against one shared seen set, first occurrence winning:
the direct output URLs have no duplicates, the agenda output has no
duplicates, and no agenda output URL also appears among the direct output
URLs. -/
theorem classify_dedup_disjoint (probe : String → Option String)
    (page : HNode) (pageURL : String) :
    ((parse_links probe page pageURL).1.map (fun x => x.2.1)).Nodup ∧
    (parse_links probe page pageURL).2.Nodup ∧
    ∀ u ∈ (parse_links probe page pageURL).2,
      u ∉ (parse_links probe page pageURL).1.map (fun x => x.2.1) := by
  unfold parse_links
  refine ⟨dedupBy_keys_nodup _ _ _, ?_, ?_⟩
  · have h := dedupBy_keys_nodup (fun u => u)
      (classifyRaw probe page pageURL).2
      (dedupBy (fun p => p.2.1) [] (classifyRaw probe page pageURL).1).2
    simpa using h
  · intro u hu humem
    have h1 := dedupBy_kept_not_seen (fun v => v)
      (classifyRaw probe page pageURL).2
      (dedupBy (fun p => p.2.1) [] (classifyRaw probe page pageURL).1).2 u hu
    apply h1
    rw [dedupBy_seen_eq (fun p => p.2.1) (classifyRaw probe page pageURL).1 []]
    simp only [List.append_nil, List.mem_reverse]
    exact humem

/-- Witness for the amended claim C3: on the five-candidate page, a URL in
the agenda output is absent from the direct output URLs. -/
theorem classify_dedup_disjoint_witness :
    "https://x.se/committees/c1" ∉
      (parse_links probe0 pageC2 urlP1).1.map (fun x => x.2.1) :=
  (classify_dedup_disjoint probe0 pageC2 urlP1).2.2 "https://x.se/committees/c1" (by decide)

/-- Filtering through a key commutes with mapping the key out. -/
theorem filter_map_key {α β : Type} (f : α → β) (p : β → Bool) :
    ∀ l : List α, (l.filter (fun x => p (f x))).map f = (l.map f).filter p := by
  intro l
  induction l with
  | nil => rfl
  | cons x xs ih =>
    cases hx : p (f x) <;> simp [List.filter_cons, hx, ih]

/-- The item list collect_all returns carries no duplicate URLs. -/
theorem collect_all_keys_nodup (probe : String → Option String)
    (fetch : Nat → Except Unit (HNode × String))
    (afetch : String → Except Unit HNode) (items : List It)
    (h : collect_all probe fetch afetch = Except.ok items) :
    (items.map (fun x => x.2.1)).Nodup := by
  unfold collect_all at h
  cases hp : paginate probe fetch with
  | error e => rw [hp] at h; cases h
  | ok r =>
    obtain ⟨d, ag, tr⟩ := r
    rw [hp] at h
    cases h
    exact dedupBy_keys_nodup (fun x : It => x.2.1) _ []

/-- Claim C9: a run starting from a history whose URLs are pairwise
distinct ends, whenever the final file parses, in a history whose URLs are
still pairwise distinct and which extends the starting history as a prefix,
every previously present item unchanged. -/
theorem history_append_only_nodup (probe : String → Option String)
    (fetch : Nat → Except Unit (HNode × String))
    (afetch : String → Except Unit HNode)
    (lm : String → Option String) (now : String) (fs : FS)
    (hist hist2 : List HistItem)
    (hload : load_history fs = Except.ok hist)
    (hnodup : (hist.map (fun it => it.url)).Nodup)
    (hrun : (main probe fetch afetch lm now fs).2 = some (Except.ok hist2)) :
    (hist2.map (fun it => it.url)).Nodup ∧ ∃ tl, hist2 = hist ++ tl := by
  unfold main at hrun
  rw [hload] at hrun
  dsimp only at hrun
  cases hc : collect_all probe fetch afetch with
  | error e =>
    rw [hc] at hrun
    dsimp only at hrun
    rw [hrun] at hload
    have heq : hist2 = hist := by
      simpa [load_history] using hload
    subst heq
    exact ⟨hnodup, ⟨[], by simp⟩⟩
  | ok allNow =>
    rw [hc] at hrun
    dsimp only [save_history] at hrun
    have hh : hist ++ (allNow.filter
        (fun x => decide (x.2.1 ∉ hist.map (fun it => it.url)))).map (mkItem probe lm now)
        = hist2 := by
      injection hrun with h1
      injection h1
    rw [← hh]
    constructor
    · rw [List.map_append]
      apply List.Nodup.append hnodup
      · have hall := collect_all_keys_nodup probe fetch afetch allNow hc
        have hmm : ((allNow.filter
            (fun x => decide (x.2.1 ∉ hist.map (fun it => it.url)))).map
              (mkItem probe lm now)).map (fun it => it.url) =
            (allNow.map (fun x => x.2.1)).filter
              (fun u => decide (u ∉ hist.map (fun it => it.url))) := by
          rw [List.map_map]
          exact filter_map_key (fun x => x.2.1)
            (fun u => decide (u ∉ hist.map (fun it => it.url))) allNow
        rw [hmm]
        exact List.Nodup.filter _ hall
      · intro u hu hv
        have hmm : ((allNow.filter
            (fun x => decide (x.2.1 ∉ hist.map (fun it => it.url)))).map
              (mkItem probe lm now)).map (fun it => it.url) =
            (allNow.map (fun x => x.2.1)).filter
              (fun u => decide (u ∉ hist.map (fun it => it.url))) := by
          rw [List.map_map]
          exact filter_map_key (fun x => x.2.1)
            (fun u => decide (u ∉ hist.map (fun it => it.url))) allNow
        rw [hmm] at hv
        have hpred := (List.mem_filter.mp hv).2
        exact of_decide_eq_true hpred hu
    · exact ⟨_, rfl⟩

/-- Witness for claim C9: a concrete run over the empty history appends
the one discovered item, the resulting history having distinct URLs and
extending the empty one. -/
theorem history_append_only_nodup_witness :
    ([item9].map (fun it => it.url)).Nodup ∧
    ∃ tl, [item9] = ([] : List HistItem) ++ tl :=
  history_append_only_nodup probe0 fetchC9 afetch0 lmNone now0 fsEmpty [] [item9]
    rfl (by simp) (by rfl)

/-- Claim C10: a history file that exists but fails to read or parse makes
load_history raise, and main then aborts before any crawling or saving, the
file state returned unchanged whatever the fetch oracles would have served;
only a missing file loads as the empty history, and a well-formed file
loads as its own item list. -/
theorem load_history_failfast (probe : String → Option String)
    (fetch : Nat → Except Unit (HNode × String))
    (afetch : String → Except Unit HNode)
    (lm : String → Option String) (now : String) (e : Unit) (hist : List HistItem) :
    main probe fetch afetch lm now (some (Except.error e)) =
      (Except.error e, some (Except.error e)) ∧
    load_history none = Except.ok [] ∧
    load_history (some (Except.ok hist)) = Except.ok hist :=
  ⟨rfl, rfl, rfl⟩

end Watcher
